import Mathlib

/-!
# Verification of the Spectrum Analyzer core logic

A shallow embedding of the analysis core of `special_matters.py`
(`SpectrumAnalyzerApp`): loading a two-column numeric text file,
linear background removal, trapezoidal-rule integration over a
user-selected window, and the blocking click-collection protocol.

Python/numpy floats are modelled by exact rationals `ℚ`; the claims under
study assert exact arithmetic identities, which `ℚ` captures.  A division
whose denominator is zero yields no finite float (Python floats raise
`ZeroDivisionError`; numpy scalars produce `inf`/`nan` with a warning) and
is modelled as the runtime failure `PyErr.zeroDivision`.  The session
state is the triple of fields the methods touch: the loaded data
(`binding_energies`/`sum_intensities`, treated as one optional pair since
the code assigns all of them together) and the results log; a log entry
records the `(x_lower, x_upper, area)` triple that the code formats into
the text widget.
-/

/-- One user click mapped into data coordinates. -/
structure Point where
  x : ℚ
  y : ℚ
deriving DecidableEq, Repr

/-- Runtime failures and handled error conditions of the analysis code.
`zeroDivision` is the Python runtime's reaction to a zero denominator;
`indexError` is numpy's `IndexError` for slicing a column out of an array
of too few dimensions; `valueError` is numpy's `ValueError` for
non-numeric or ragged input (surfaced by the code as the
"Invalid data format" dialog, the spec's FileFormatError); `ioError` is a
failed file read (the spec's NotFoundError); `invalidRange` is the
"Invalid range selected." dialog; `invalidSelection` is the error the
spec asks for on a degenerate two-point background (no code path
produces it). -/
inductive PyErr where
  | zeroDivision
  | indexError
  | valueError
  | ioError
  | invalidRange
  | invalidSelection
deriving DecidableEq, Repr

/-- One token of a whitespace-delimited input file: a numeric literal or
anything `np.loadtxt` cannot parse as a number. -/
inductive Token where
  | num (v : ℚ)
  | nonNumeric
deriving DecidableEq, Repr

/-- One line of the results text widget, as the data it is formatted
from: `f"Intensity({x_lower:.2f}-{x_upper:.2f} eV): {area:.4f}"`. -/
structure LogEntry where
  x_lower : ℚ
  x_upper : ℚ
  area : ℚ
deriving DecidableEq, Repr

/-- The mutable session state of `SpectrumAnalyzerApp` that the analysis
methods read or write: `data` is `None` before any load and otherwise
holds the `(binding_energies, sum_intensities)` pair; `results_text` is
the append-only log. -/
structure Session where
  data : Option (List ℚ × List ℚ)
  results_text : List LogEntry
deriving DecidableEq, Repr

/-- Division of floats: a zero denominator yields no finite result and is
modelled as the `zeroDivision` runtime failure. -/
def pydiv (a b : ℚ) : Except PyErr ℚ :=
  if b = 0 then .error .zeroDivision else .ok (a / b)

/-- Tail of `np.argmin (np.abs (xs - t))`: scan `vs` (the samples from
index `i` on), keeping the index `best` of the first minimum seen so far,
whose distance to `t` is `bestVal`. The strict `<` keeps the first
occurrence on ties, as `np.argmin` does. -/
def argminAbsGo (t : ℚ) : List ℚ → Nat → Nat → ℚ → Nat
  | [], _, best, _ => best
  | v :: vs, i, best, bestVal =>
    if |v - t| < bestVal then argminAbsGo t vs (i + 1) i |v - t|
    else argminAbsGo t vs (i + 1) best bestVal

/-- `np.argmin (np.abs (xs - t))`: index of the sample of `xs` nearest to
`t`, ties broken by the lowest index. (`np.argmin` raises on an empty
array; the code only applies it to loaded, hence non-empty, data — on
`[]` this total model returns `0`.) -/
def argminAbs (t : ℚ) : List ℚ → Nat
  | [] => 0
  | v :: vs => argminAbsGo t vs 1 0 |v - t|

/-- `np.trapz(ys, xs)`: the trapezoidal rule over paired samples,
`Σ (x_{i+1} - x_i) * (y_i + y_{i+1}) / 2`. -/
def trapz : List ℚ → List ℚ → ℚ
  | y1 :: y2 :: ys, x1 :: x2 :: xs =>
    (x2 - x1) * (y1 + y2) / 2 + trapz (y2 :: ys) (x2 :: xs)
  | _, _ => 0

/-- The Python slice `l[a:b]` (for `0 ≤ a ≤ b`). -/
def pyslice (l : List ℚ) (a b : Nat) : List ℚ :=
  (l.drop a).take (b - a)

/-- The body of `remove_background` after the two points have been
collected, acting on the loaded `(binding_energies, sum_intensities)`
pair and returning the pair as left by the method.  Faithful to the
source: if not exactly 2 points were supplied it returns without
mutating; it swaps the points so the first has the smaller x; the slope
division is unguarded, so equal x-coordinates hit the zero-denominator
runtime failure; otherwise `sum_intensities -= slope * binding_energies
+ intercept` elementwise. -/
def remove_background (x y : List ℚ) (points : List Point) :
    Except PyErr (List ℚ × List ℚ) :=
  if points.length ≠ 2 then .ok (x, y)
  else
    let p := points.getD 0 ⟨0, 0⟩
    let q := points.getD 1 ⟨0, 0⟩
    let n := if p.x > q.x then (q.x, q.y, p.x, p.y) else (p.x, p.y, q.x, q.y)
    match pydiv (n.2.2.2 - n.2.1) (n.2.2.1 - n.1) with
    | .error e => .error e
    | .ok slope =>
      let intercept := n.2.1 - slope * n.1
      let linear_fit := x.map (fun xi => slope * xi + intercept)
      .ok (x, (y.zip linear_fit).map (fun p => p.1 - p.2))

/-- Outcome of one `calculate_intensities` call: the early returns (no
data loaded, fewer than 2 points), the "Invalid range selected." error
dialog, or the computed area shown in the "Intensity" dialog. -/
inductive CalcOutcome where
  | noData
  | tooFewPoints
  | invalidRange
  | intensity (area : ℚ)
deriving DecidableEq, Repr

/-- `calculate_intensities` given the points the user clicked: sorts the
points' x-values, takes the two smallest as `x_lower ≤ x_upper`, snaps
each to the nearest sample index by `argminAbs`, rejects
`start_idx ≥ end_idx`, and otherwise integrates `np.trapz` over the
half-open slices `[start_idx:end_idx]`, appending the result to
`results_text`. -/
def calculate_intensities (s : Session) (points : List Point) :
    Session × CalcOutcome :=
  match s.data with
  | none => (s, .noData)
  | some (binding_energies, sum_intensities) =>
    if points.length < 2 then (s, .tooFewPoints)
    else
      let x_values := (points.map Point.x).insertionSort (· ≤ ·)
      let x_lower := x_values.getD 0 0
      let x_upper := x_values.getD 1 0
      let start_idx := argminAbs x_lower binding_energies
      let end_idx := argminAbs x_upper binding_energies
      if start_idx ≥ end_idx then (s, .invalidRange)
      else
        let area := trapz (pyslice sum_intensities start_idx end_idx)
                          (pyslice binding_energies start_idx end_idx)
        ({ s with results_text :=
            s.results_text ++ [⟨x_lower, x_upper, area⟩] },
         .intensity area)

/-- One matplotlib `button_press_event`: `xdata`/`ydata` are `None` when
the click falls outside the data axes. -/
structure ClickEvent where
  xdata : Option ℚ
  ydata : Option ℚ
deriving DecidableEq, Repr

/-- The `onclick` handler of `get_user_points`, replayed over the stream
of click events: a click with both coordinates present appends a point;
once `num_points` points have accumulated the handler is disconnected
(later events are dropped) and the wait completes.  `none` models the
call never returning because the stream ran out before `n` valid
clicks. -/
def collectGo (n : Nat) : List ClickEvent → List Point → Option (List Point)
  | [], _ => none
  | e :: es, pts =>
    match e.xdata, e.ydata with
    | some xd, some yd =>
      let pts' := pts ++ [⟨xd, yd⟩]
      if pts'.length = n then some pts' else collectGo n es pts'
    | _, _ => collectGo n es pts

/-- `get_user_points(num_points)` driven by a stream of click events. -/
def get_user_points (num_points : Nat) (events : List ClickEvent) :
    Option (List Point) :=
  collectGo num_points events []

/-- The points of a click stream that fall inside the axes, in click
order. -/
def validPoints (events : List ClickEvent) : List Point :=
  events.filterMap fun e =>
    match e.xdata, e.ydata with
    | some xd, some yd => some ⟨xd, yd⟩
    | _, _ => none

/-- Outcome of one `load_selected_file` call: success, an exception
caught and shown as an error dialog, or an exception that escapes the
handler (the code catches only `IOError` and `ValueError`). -/
inductive LoadOutcome where
  | success
  | caught (e : PyErr)
  | uncaught (e : PyErr)
deriving DecidableEq, Repr

/-- `np.loadtxt` on the parsed lines of the file: blank lines are
skipped; any non-numeric token or ragged row shape is a `ValueError`;
the result is the rectangular matrix of numbers. -/
def loadtxt (file : List (List Token)) : Except PyErr (List (List ℚ)) :=
  let rows := file.filter (fun r => r ≠ [])
  if rows.any (fun r => r.any (fun t => t = Token.nonNumeric)) then
    .error .valueError
  else if rows.any (fun r => r.length ≠ (rows.headD []).length) then
    .error .valueError
  else
    .ok (rows.map (fun r => r.map (fun t =>
      match t with | .num v => v | .nonNumeric => 0)))

/-- `load_selected_file` on the chosen file: `none` input models an
unreadable path (`IOError`, caught).  On a parsed matrix, `data[:, 0]`
and `data[:, 1]` require a 2-dimensional array; `np.loadtxt` squeezes
size-one axes away, so a file with fewer than 2 rows or fewer than 2
columns yields a 0- or 1-dimensional array and the column slice raises
an `IndexError`, which the `except` clauses do not catch.  On success
the session's data is replaced wholesale; on every failure the session
is unchanged. -/
def load_selected_file (s : Session) (file : Option (List (List Token))) :
    Session × LoadOutcome :=
  match file with
  | none => (s, .caught .ioError)
  | some f =>
    match loadtxt f with
    | .error e => (s, .caught e)
    | .ok mat =>
      if 2 ≤ mat.length ∧ 2 ≤ (mat.headD []).length then
        ({ s with data := some (mat.map (fun r => r.getD 0 0),
                                mat.map (fun r => r.getD 1 0)) },
         .success)
      else (s, .uncaught .indexError)

/-- The DataSet invariant of the spec: paired sequences of equal length,
non-empty once loaded. -/
def DataInvariant (x y : List ℚ) : Prop :=
  x.length = y.length ∧ x ≠ []

/-- The way the claims state nearest-sample snapping: `k` is in range,
no sample is strictly closer to `t`, and every earlier sample is strictly
farther (so ties resolve to the lowest index). -/
def IsFirstArgminAbs (t : ℚ) (xs : List ℚ) (k : Nat) : Prop :=
  k < xs.length ∧
  (∀ j < xs.length, |xs.getD k 0 - t| ≤ |xs.getD j 0 - t|) ∧
  (∀ j < k, |xs.getD k 0 - t| < |xs.getD j 0 - t|)

/-- The slope the spec prescribes: reorder the two points so the first
has the smaller x, then `slope = (y2 - y1) / (x2 - x1)`. -/
def specSlope (p q : Point) : ℚ :=
  ((if p.x > q.x then p else q).y - (if p.x > q.x then q else p).y) /
    ((if p.x > q.x then p else q).x - (if p.x > q.x then q else p).x)

/-- The intercept the spec prescribes: `intercept = y1 - slope * x1` for
the order-normalized first point. -/
def specIntercept (p q : Point) : ℚ :=
  (if p.x > q.x then q else p).y -
    specSlope p q * (if p.x > q.x then q else p).x

/-- The background line of the spec, `slope * xi + intercept` over the
order-normalized points. -/
def specLine (p q : Point) (xi : ℚ) : ℚ :=
  specSlope p q * xi + specIntercept p q

theorem pyslice_length (l : List ℚ) (a b : Nat) (h : b ≤ l.length) :
    (pyslice l a b).length = b - a := by
  simp only [pyslice, List.length_take, List.length_drop]
  omega

theorem pyslice_getD (l : List ℚ) (a b i : Nat) (h1 : i < b - a) :
    (pyslice l a b).getD i 0 = l.getD (a + i) 0 := by
  simp only [pyslice, List.getD_eq_getElem?_getD]
  rw [List.getElem?_take_of_lt h1, List.getElem?_drop]

theorem argminAbsGo_spec (t : ℚ) (xs : List ℚ) :
    ∀ (vs : List ℚ) (i best : Nat) (bestVal : ℚ),
    vs = xs.drop i → best < i → i ≤ xs.length →
    bestVal = |xs.getD best 0 - t| →
    (∀ j < i, bestVal ≤ |xs.getD j 0 - t|) →
    (∀ j < best, bestVal < |xs.getD j 0 - t|) →
    IsFirstArgminAbs t xs (argminAbsGo t vs i best bestVal) := by
  intro vs
  induction vs with
  | nil =>
    intro i best bestVal hdrop hbi hilen hbv hle hlt
    have hlen : xs.length ≤ i := List.drop_eq_nil_iff.mp hdrop.symm
    have hi : i = xs.length := le_antisymm hilen hlen
    subst hbv
    show IsFirstArgminAbs t xs best
    exact ⟨by omega, fun j hj => hle j (by omega), hlt⟩
  | cons v vs' ih =>
    intro i best bestVal hdrop hbi hilen hbv hle hlt
    have hiltlen : i < xs.length := by
      by_contra hc
      rw [List.drop_eq_nil_iff.mpr (by omega)] at hdrop
      exact List.noConfusion hdrop
    have hv : xs.getD i 0 = v := by
      have h0 : (xs.drop i)[0]? = some v := by rw [← hdrop]; simp
      rw [List.getElem?_drop] at h0
      simp only [Nat.add_zero] at h0
      simp [List.getD_eq_getElem?_getD, h0]
    have hvs' : vs' = xs.drop (i + 1) := by
      have : xs.drop (i + 1) = (xs.drop i).drop 1 := by
        rw [List.drop_drop]
      rw [this, ← hdrop]
      rfl
    show IsFirstArgminAbs t xs
      (if |v - t| < bestVal then argminAbsGo t vs' (i + 1) i |v - t|
       else argminAbsGo t vs' (i + 1) best bestVal)
    by_cases hcmp : |v - t| < bestVal
    · rw [if_pos hcmp]
      refine ih (i + 1) i |v - t| hvs' (by omega) (by omega)
        (by rw [hv]) ?_ ?_
      · intro j hj
        rcases Nat.lt_succ_iff_lt_or_eq.mp hj with hj' | hj'
        · exact le_of_lt (lt_of_lt_of_le hcmp (hle j hj'))
        · subst hj'; rw [hv]
      · intro j hj
        exact lt_of_lt_of_le hcmp (hle j hj)
    · rw [if_neg hcmp]
      refine ih (i + 1) best bestVal hvs' (by omega) (by omega) hbv ?_ hlt
      intro j hj
      rcases Nat.lt_succ_iff_lt_or_eq.mp hj with hj' | hj'
      · exact hle j hj'
      · subst hj'; rw [hv]; exact not_lt.mp hcmp

theorem argminAbs_spec (t : ℚ) (xs : List ℚ) (h : xs ≠ []) :
    IsFirstArgminAbs t xs (argminAbs t xs) := by
  cases xs with
  | nil => exact absurd rfl h
  | cons v vs =>
    show IsFirstArgminAbs t (v :: vs) (argminAbsGo t vs 1 0 |v - t|)
    refine argminAbsGo_spec t (v :: vs) vs 1 0 |v - t| rfl (by omega)
      (by simp) rfl ?_ (by omega)
    intro j hj
    interval_cases j
    exact le_refl _

theorem trapz_eq_sum (ys : List ℚ) :
    ∀ xs : List ℚ, ys.length = xs.length →
    trapz ys xs = ∑ i ∈ Finset.range (xs.length - 1),
      (xs.getD (i + 1) 0 - xs.getD i 0) *
        (ys.getD i 0 + ys.getD (i + 1) 0) / 2 := by
  induction ys with
  | nil =>
    intro xs h
    cases xs with
    | nil => simp [trapz]
    | cons x xs => simp at h
  | cons y1 rest ih =>
    intro xs h
    cases rest with
    | nil =>
      cases xs with
      | nil => simp at h
      | cons x1 xs' =>
        cases xs' with
        | nil => simp [trapz]
        | cons x2 xs'' => simp at h
    | cons y2 ys' =>
      cases xs with
      | nil => simp at h
      | cons x1 xs' =>
        cases xs' with
        | nil => simp at h
        | cons x2 xs'' =>
          have hlen : (y2 :: ys').length = (x2 :: xs'').length := by
            simpa using h
          have hstep := ih (x2 :: xs'') hlen
          show (x2 - x1) * (y1 + y2) / 2 + trapz (y2 :: ys') (x2 :: xs'') = _
          rw [hstep]
          have hn : (x1 :: x2 :: xs'').length - 1 = xs''.length + 1 := by
            simp
          rw [hn]
          rw [Finset.sum_range_succ']
          have hn2 : (x2 :: xs'').length - 1 = xs''.length := by simp
          rw [hn2]
          simp only [List.getD_cons_succ, List.getD_cons_zero]
          ring

theorem trapz_const (c : ℚ) (ys : List ℚ) :
    ∀ xs : List ℚ, ys.length = xs.length → (∀ y ∈ ys, y = c) →
    trapz ys xs = c * (xs.getD (xs.length - 1) 0 - xs.getD 0 0) := by
  induction ys with
  | nil =>
    intro xs h _
    cases xs with
    | nil => simp [trapz]
    | cons x xs => simp at h
  | cons y1 rest ih =>
    intro xs h hc
    cases rest with
    | nil =>
      cases xs with
      | nil => simp at h
      | cons x1 xs' =>
        cases xs' with
        | nil => simp [trapz]
        | cons x2 xs'' => simp at h
    | cons y2 ys' =>
      cases xs with
      | nil => simp at h
      | cons x1 xs' =>
        cases xs' with
        | nil => simp at h
        | cons x2 xs'' =>
          have hlen : (y2 :: ys').length = (x2 :: xs'').length := by
            simpa using h
          have hc' : ∀ y ∈ y2 :: ys', y = c := fun y hy =>
            hc y (List.mem_cons_of_mem _ hy)
          have hstep := ih (x2 :: xs'') hlen hc'
          show (x2 - x1) * (y1 + y2) / 2 + trapz (y2 :: ys') (x2 :: xs'') = _
          rw [hstep]
          have h1 : y1 = c := hc y1 (List.mem_cons_self _ _)
          have h2 : y2 = c :=
            hc y2 (List.mem_cons_of_mem _ (List.mem_cons_self _ _))
          have hgl : (x1 :: x2 :: xs'').getD ((x1 :: x2 :: xs'').length - 1) 0 =
              (x2 :: xs'').getD ((x2 :: xs'').length - 1) 0 := by
            simp
          rw [hgl, h1, h2]
          simp only [List.getD_cons_zero]
          ring

theorem subLine_getD (s t : ℚ) (y : List ℚ) :
    ∀ (x : List ℚ) (i : Nat), i < y.length → i < x.length →
    ((y.zip (x.map fun xi => s * xi + t)).map fun p => p.1 - p.2).getD i 0 =
      y.getD i 0 - (s * x.getD i 0 + t) := by
  induction y with
  | nil => intro x i hy _; simp at hy
  | cons a y' ih =>
    intro x i hy hx
    cases x with
    | nil => simp at hx
    | cons b x' =>
      cases i with
      | zero => simp
      | succ i' =>
        simpa using ih x' i' (by simpa using hy) (by simpa using hx)

theorem collectGo_spec (n : Nat) :
    ∀ (events : List ClickEvent) (acc : List Point),
    acc.length < n → n ≤ acc.length + (validPoints events).length →
    collectGo n events acc = some ((acc ++ validPoints events).take n) := by
  intro events
  induction events with
  | nil =>
    intro acc h1 h2
    simp [validPoints] at h2
    omega
  | cons e es ih =>
    intro acc h1 h2
    rcases e with ⟨xd, yd⟩
    cases xd with
    | none =>
      have hval : validPoints (⟨none, yd⟩ :: es) = validPoints es := by
        simp [validPoints]
      show collectGo n es acc = _
      rw [hval]
      rw [hval] at h2
      exact ih acc h1 h2
    | some a =>
      cases yd with
      | none =>
        have hval : validPoints (⟨some a, none⟩ :: es) = validPoints es := by
          simp [validPoints]
        show collectGo n es acc = _
        rw [hval]
        rw [hval] at h2
        exact ih acc h1 h2
      | some b =>
        have hval : validPoints (⟨some a, some b⟩ :: es) =
            Point.mk a b :: validPoints es := by
          simp [validPoints]
        rw [hval]
        rw [hval] at h2
        show (if (acc ++ [Point.mk a b]).length = n then
                some (acc ++ [Point.mk a b])
              else collectGo n es (acc ++ [Point.mk a b])) = _
        rw [List.append_cons acc (Point.mk a b) (validPoints es)]
        by_cases hn : (acc ++ [Point.mk a b]).length = n
        · rw [if_pos hn, ← hn, List.take_left]
        · rw [if_neg hn]
          have h1' : (acc ++ [Point.mk a b]).length < n := by
            simp only [List.length_append, List.length_cons,
              List.length_nil] at hn ⊢
            omega
          have h2' : n ≤ (acc ++ [Point.mk a b]).length +
              (validPoints es).length := by
            simp only [List.length_append, List.length_cons,
              List.length_nil] at h2 ⊢
            omega
          exact ih (acc ++ [Point.mk a b]) h1' h2'

theorem insertionSort_pair (a b : ℚ) :
    List.insertionSort (· ≤ ·) [a, b] =
      if a ≤ b then [a, b] else [b, a] := by
  by_cases h : a ≤ b <;>
    simp [List.insertionSort, List.orderedInsert, h]

theorem calculate_intensities_eq (x y : List ℚ) (log : List LogEntry)
    (p1 p2 : Point) :
    calculate_intensities ⟨some (x, y), log⟩ [p1, p2] =
      if argminAbs (max p1.x p2.x) x ≤ argminAbs (min p1.x p2.x) x then
        (⟨some (x, y), log⟩, .invalidRange)
      else
        (⟨some (x, y), log ++ [⟨min p1.x p2.x, max p1.x p2.x,
           trapz (pyslice y (argminAbs (min p1.x p2.x) x)
                            (argminAbs (max p1.x p2.x) x))
                 (pyslice x (argminAbs (min p1.x p2.x) x)
                            (argminAbs (max p1.x p2.x) x))⟩]⟩,
         .intensity
           (trapz (pyslice y (argminAbs (min p1.x p2.x) x)
                             (argminAbs (max p1.x p2.x) x))
                  (pyslice x (argminAbs (min p1.x p2.x) x)
                            (argminAbs (max p1.x p2.x) x)))) := by
  simp only [calculate_intensities]
  rw [if_neg (by simp : ¬([p1, p2] : List Point).length < 2)]
  simp only [List.map_cons, List.map_nil]
  rw [insertionSort_pair p1.x p2.x]
  by_cases h : p1.x ≤ p2.x
  · rw [if_pos h]
    simp only [List.getD_cons_zero, List.getD_cons_succ]
    rw [min_eq_left h, max_eq_right h]
  · rw [if_neg h]
    simp only [List.getD_cons_zero, List.getD_cons_succ]
    rw [min_eq_right (le_of_not_le h), max_eq_left (le_of_not_le h)]

/-- C1: for a loaded dataset and two selected x-bounds `x_lo ≤ x_hi`,
`calculate_intensities` snaps each bound to the nearest sample index
(argmin of `|x[i] - bound|`, ties to the lowest index) and, when
`start_idx < end_idx`, returns exactly the trapezoidal sum
`Σ (x[i+1]-x[i])*(y[i]+y[i+1])/2` over the half-open window
`[start_idx, end_idx)`, the sample at `end_idx` excluded. -/
theorem calculate_intensities_snaps_and_integrates
    (x y : List ℚ) (log : List LogEntry) (p1 p2 : Point)
    (hne : x ≠ []) (hlen : y.length = x.length) (hord : p1.x ≤ p2.x)
    (hidx : argminAbs p1.x x < argminAbs p2.x x) :
    IsFirstArgminAbs p1.x x (argminAbs p1.x x) ∧
    IsFirstArgminAbs p2.x x (argminAbs p2.x x) ∧
    (calculate_intensities ⟨some (x, y), log⟩ [p1, p2]).2 =
      .intensity
        (∑ i ∈ Finset.range (argminAbs p2.x x - argminAbs p1.x x - 1),
          (x.getD (argminAbs p1.x x + i + 1) 0 -
             x.getD (argminAbs p1.x x + i) 0) *
            (y.getD (argminAbs p1.x x + i) 0 +
               y.getD (argminAbs p1.x x + i + 1) 0) / 2) := by
  refine ⟨argminAbs_spec p1.x x hne, argminAbs_spec p2.x x hne, ?_⟩
  rw [calculate_intensities_eq, min_eq_left hord, max_eq_right hord,
    if_neg (by omega)]
  show CalcOutcome.intensity _ = _
  congr 1
  have helen : argminAbs p2.x x < x.length := (argminAbs_spec p2.x x hne).1
  have hly : (pyslice y (argminAbs p1.x x) (argminAbs p2.x x)).length =
      argminAbs p2.x x - argminAbs p1.x x := by
    rw [pyslice_length]
    omega
  have hlx : (pyslice x (argminAbs p1.x x) (argminAbs p2.x x)).length =
      argminAbs p2.x x - argminAbs p1.x x := by
    rw [pyslice_length]
    omega
  rw [trapz_eq_sum _ _ (by rw [hly, hlx]), hlx]
  apply Finset.sum_congr rfl
  intro i hi
  rw [Finset.mem_range] at hi
  rw [pyslice_getD x _ _ i (by omega), pyslice_getD x _ _ (i + 1) (by omega),
    pyslice_getD y _ _ i (by omega), pyslice_getD y _ _ (i + 1) (by omega)]
  have h1 : argminAbs p1.x x + (i + 1) = argminAbs p1.x x + i + 1 := by omega
  rw [h1]

/-- C4: when every `y` sample in the snapped window `[start_idx,
end_idx)` equals the constant `c`, `calculate_intensities` returns
exactly `c * (x[end_idx - 1] - x[start_idx])`: the flat-signal area uses
`x[end_idx - 1]`, not `x[end_idx]`, as its right edge, witnessing the
exclusive right boundary. -/
theorem calculate_intensities_flat_signal
    (x y : List ℚ) (log : List LogEntry) (p1 p2 : Point) (c : ℚ)
    (hne : x ≠ []) (hlen : y.length = x.length) (hord : p1.x ≤ p2.x)
    (hidx : argminAbs p1.x x < argminAbs p2.x x)
    (hc : ∀ i, argminAbs p1.x x ≤ i → i < argminAbs p2.x x →
      y.getD i 0 = c) :
    (calculate_intensities ⟨some (x, y), log⟩ [p1, p2]).2 =
      .intensity (c * (x.getD (argminAbs p2.x x - 1) 0 -
                       x.getD (argminAbs p1.x x) 0)) := by
  rw [calculate_intensities_eq, min_eq_left hord, max_eq_right hord,
    if_neg (by omega)]
  show CalcOutcome.intensity _ = _
  congr 1
  have helen : argminAbs p2.x x < x.length := (argminAbs_spec p2.x x hne).1
  have hly : (pyslice y (argminAbs p1.x x) (argminAbs p2.x x)).length =
      argminAbs p2.x x - argminAbs p1.x x := by
    rw [pyslice_length]
    omega
  have hlx : (pyslice x (argminAbs p1.x x) (argminAbs p2.x x)).length =
      argminAbs p2.x x - argminAbs p1.x x := by
    rw [pyslice_length]
    omega
  rw [trapz_const c _ _ (by rw [hly, hlx]) ?_, hlx]
  · rw [pyslice_getD x _ _ 0 (by omega),
      pyslice_getD x _ _ (argminAbs p2.x x - argminAbs p1.x x - 1) (by omega)]
    have h1 : argminAbs p1.x x +
        (argminAbs p2.x x - argminAbs p1.x x - 1) = argminAbs p2.x x - 1 := by
      omega
    have h2 : argminAbs p1.x x + 0 = argminAbs p1.x x := by omega
    rw [h1, h2]
  · intro yv hyv
    obtain ⟨i, hilt, rfl⟩ := List.mem_iff_getElem.mp hyv
    rw [hly] at hilt
    have hget : (pyslice y (argminAbs p1.x x) (argminAbs p2.x x)).getD i 0 =
        (pyslice y (argminAbs p1.x x) (argminAbs p2.x x))[i] := by
      rw [List.getD_eq_getElem?_getD, List.getElem?_eq_getElem (by rw [hly]; omega)]
      rfl
    rw [← hget, pyslice_getD y _ _ i (by omega)]
    exact hc _ (by omega) (by omega)

/-- C5: whenever the snapped indices satisfy `start_idx ≥ end_idx`,
`calculate_intensities` reports the invalid-range error, leaves the
session untouched and produces no numeric result. -/
theorem calculate_intensities_invalid_range
    (x y : List ℚ) (log : List LogEntry) (p1 p2 : Point)
    (hidx : argminAbs (min p1.x p2.x) x ≥ argminAbs (max p1.x p2.x) x) :
    calculate_intensities ⟨some (x, y), log⟩ [p1, p2] =
      (⟨some (x, y), log⟩, .invalidRange) := by
  rw [calculate_intensities_eq, if_pos hidx]

/-- Witness for C1: `x = [0,1,2,3,4]`, `y = [0,1,4,1,0]`, bounds 1 and 3
snap to indices 1 and 3; the window is samples 1,2 and the area
`(2-1)*(1+4)/2 = 5/2`. -/
theorem calculate_intensities_snaps_and_integrates_witness :
    (calculate_intensities ⟨some ([0, 1, 2, 3, 4], [0, 1, 4, 1, 0]), []⟩
      [⟨1, 5⟩, ⟨3, 6⟩]).2 = .intensity (5 / 2) := by
  have h := calculate_intensities_snaps_and_integrates
    [0, 1, 2, 3, 4] [0, 1, 4, 1, 0] [] ⟨1, 5⟩ ⟨3, 6⟩
    (by simp) rfl (by norm_num)
    (by norm_num [argminAbs, argminAbsGo, abs])
  rw [h.2.2]
  norm_num [argminAbs, argminAbsGo, abs, Finset.sum_range_succ]

/-- Witness for C4: over `x = [0,1,2,3,4]`, `y = [9,7,7,7,9]` with
bounds 1 and 3 the window samples are the constant 7, and the area is
`7 * (x[2] - x[1]) = 7`, using `x[end_idx - 1] = 2` as the right edge. -/
theorem calculate_intensities_flat_signal_witness :
    (calculate_intensities ⟨some ([0, 1, 2, 3, 4], [9, 7, 7, 7, 9]), []⟩
      [⟨1, 0⟩, ⟨3, 0⟩]).2 = .intensity 7 := by
  have h := calculate_intensities_flat_signal
    [0, 1, 2, 3, 4] [9, 7, 7, 7, 9] [] ⟨1, 0⟩ ⟨3, 0⟩ 7
    (by simp) rfl (by norm_num)
    (by norm_num [argminAbs, argminAbsGo, abs])
    (by
      intro i h1 h2
      norm_num [argminAbs, argminAbsGo, abs] at h1 h2
      interval_cases i <;> rfl)
  rw [h]
  norm_num [argminAbs, argminAbsGo, abs]

/-- Witness for C5: bounds 9/10 and 6/5 both snap to sample index 1 of
`x = [0,1,2,3,4]`, so `start_idx = end_idx` and the call reports the
invalid-range error without touching the session. -/
theorem calculate_intensities_invalid_range_witness :
    calculate_intensities ⟨some ([0, 1, 2, 3, 4], [0, 1, 4, 1, 0]), []⟩
      [⟨6/5, 0⟩, ⟨9/10, 0⟩] =
      (⟨some ([0, 1, 2, 3, 4], [0, 1, 4, 1, 0]), []⟩, .invalidRange) := by
  exact calculate_intensities_invalid_range
    [0, 1, 2, 3, 4] [0, 1, 4, 1, 0] [] ⟨6/5, 0⟩ ⟨9/10, 0⟩
    (by norm_num [argminAbs, argminAbsGo, abs, min_def, max_def])

theorem remove_background_eq (x y : List ℚ) (p q : Point)
    (hne : p.x ≠ q.x) :
    remove_background x y [p, q] =
      .ok (x, (y.zip (x.map fun xi =>
        specSlope p q * xi + specIntercept p q)).map fun r => r.1 - r.2) := by
  by_cases hpq : p.x > q.x
  · have hden : p.x - q.x ≠ 0 := sub_ne_zero.mpr hne
    simp only [remove_background, List.length_cons, List.length_nil,
      List.getD_cons_zero, List.getD_cons_succ, if_pos hpq, pydiv,
      specSlope, specIntercept, ne_eq, if_neg hden]
    norm_num
  · have hden : q.x - p.x ≠ 0 := sub_ne_zero.mpr (Ne.symm hne)
    simp only [remove_background, List.length_cons, List.length_nil,
      List.getD_cons_zero, List.getD_cons_succ, if_neg hpq, pydiv,
      specSlope, specIntercept, ne_eq, if_neg hden]
    norm_num

/-- C2: for a loaded dataset and two selected points with distinct
x-coordinates, `remove_background` replaces every `y[i]` by exactly
`y[i] - (slope * x[i] + intercept)` with slope and intercept computed
from the order-normalized points, over the full domain of `x`; applying
it twice with the same points subtracts the line twice. -/
theorem remove_background_linear_subtraction
    (x y : List ℚ) (p q : Point) (hlen : y.length = x.length)
    (hne : p.x ≠ q.x) :
    ∃ y1 y2 : List ℚ,
      remove_background x y [p, q] = .ok (x, y1) ∧
      remove_background x y1 [p, q] = .ok (x, y2) ∧
      y1.length = y.length ∧
      (∀ i < y.length,
        y1.getD i 0 = y.getD i 0 - specLine p q (x.getD i 0)) ∧
      (∀ i < y.length,
        y2.getD i 0 = y.getD i 0 - 2 * specLine p q (x.getD i 0)) := by
  refine ⟨_, _, remove_background_eq x y p q hne,
    remove_background_eq x _ p q hne, ?_, ?_, ?_⟩
  · simp [hlen]
  · intro i hi
    rw [subLine_getD _ _ y x i hi (by omega), specLine]
  · intro i hi
    have hlen1 : ((y.zip (x.map fun xi =>
        specSlope p q * xi + specIntercept p q)).map
          fun r => r.1 - r.2).length = y.length := by
      simp [hlen]
    rw [subLine_getD _ _ _ x i (by rw [hlen1]; exact hi) (by omega),
      subLine_getD _ _ y x i hi (by omega), specLine]
    ring

/-- Witness for C2: data `x = [0,1]`, `y = [1,2]` with points `(0,1)`
and `(1,2)` (slope 1, intercept 1); one application flattens `y` to
zeros, a second subtracts the line again. -/
theorem remove_background_linear_subtraction_witness :
    ∃ y1 y2 : List ℚ,
      remove_background [0, 1] [1, 2] [⟨0, 1⟩, ⟨1, 2⟩] = .ok ([0, 1], y1) ∧
      remove_background [0, 1] y1 [⟨0, 1⟩, ⟨1, 2⟩] = .ok ([0, 1], y2) ∧
      y1.length = 2 ∧
      (∀ i < 2, y1.getD i 0 =
        ([1, 2] : List ℚ).getD i 0 - specLine ⟨0, 1⟩ ⟨1, 2⟩
          (([0, 1] : List ℚ).getD i 0)) ∧
      (∀ i < 2, y2.getD i 0 =
        ([1, 2] : List ℚ).getD i 0 - 2 * specLine ⟨0, 1⟩ ⟨1, 2⟩
          (([0, 1] : List ℚ).getD i 0)) :=
  remove_background_linear_subtraction [0, 1] [1, 2] ⟨0, 1⟩ ⟨1, 2⟩ rfl
    (by norm_num)

/-- C9: `remove_background` never changes the binding-energy sequence:
whenever it returns a dataset, the returned `x` is the input `x`. -/
theorem remove_background_preserves_binding_energies
    (x y : List ℚ) (points : List Point) (x' y' : List ℚ)
    (h : remove_background x y points = .ok (x', y')) : x' = x := by
  unfold remove_background at h
  split at h
  · simp only [Except.ok.injEq, Prod.mk.injEq] at h
    exact h.1.symm
  · dsimp only at h
    split at h
    · exact Except.noConfusion h
    · simp only [Except.ok.injEq, Prod.mk.injEq] at h
      exact h.1.symm

/-- Witness for C9: a concrete run returning a dataset whose `x` part
is the input binding energies. -/
theorem remove_background_preserves_binding_energies_witness :
    ([0, 1] : List ℚ) = [0, 1] :=
  remove_background_preserves_binding_energies [0, 1] [1, 2]
    [⟨0, 1⟩, ⟨1, 2⟩] [0, 1] [0, 0]
    (by norm_num [remove_background, pydiv])

/-- C3 (divergence): with two selected points of equal x, the code hits
the unguarded zero-denominator division and fails with the runtime
zero-division error, and no execution of `remove_background` ever
produces the InvalidSelection error the claim requires. -/
theorem remove_background_equal_x_zero_division :
    remove_background [0, 1, 2, 3, 4] [0, 1, 4, 1, 0] [⟨1, 5⟩, ⟨1, 7⟩]
      = .error .zeroDivision ∧
    ∀ (x y : List ℚ) (points : List Point),
      remove_background x y points ≠ .error .invalidSelection := by
  constructor
  · norm_num [remove_background, pydiv]
  · intro x y points h
    unfold remove_background at h
    split at h
    · exact Except.noConfusion h
    · dsimp only at h
      set p0 := points.getD 0 (Point.mk 0 0) with hp0
      set q0 := points.getD 1 (Point.mk 0 0) with hq0
      by_cases hpq : p0.x > q0.x
      · rw [if_pos hpq] at h
        dsimp only at h
        by_cases hd : p0.x - q0.x = 0
        · simp only [pydiv, if_pos hd] at h
          simp at h
        · simp only [pydiv, if_neg hd] at h
          exact Except.noConfusion h
      · rw [if_neg hpq] at h
        dsimp only at h
        by_cases hd : q0.x - p0.x = 0
        · simp only [pydiv, if_pos hd] at h
          simp at h
        · simp only [pydiv, if_neg hd] at h
          exact Except.noConfusion h

/-- C6: for a positive target `n` and a click stream supplying at least
`n` in-axes clicks, `get_user_points` returns exactly the first `n`
valid clicks in click order: out-of-axes clicks are discarded without
counting toward `n`, and the handler disconnects after the `n`-th valid
click, so no later click is included. -/
theorem get_user_points_collects_first_n_valid_clicks
    (n : Nat) (events : List ClickEvent)
    (hn : 0 < n) (henough : n ≤ (validPoints events).length) :
    get_user_points n events = some ((validPoints events).take n) ∧
    ((validPoints events).take n).length = n := by
  constructor
  · have h := collectGo_spec n events [] (by simpa using hn)
      (by simpa using henough)
    simpa [get_user_points] using h
  · rw [List.length_take]
    omega

/-- Witness for C6: two valid clicks arriving out of x-order, one
out-of-axes click in between, and a fourth click after completion: the
result is exactly the first two valid clicks, in click order. -/
theorem get_user_points_collects_first_n_valid_clicks_witness :
    get_user_points 2 [⟨some 3, some 1⟩, ⟨none, some 5⟩, ⟨some 1, some 2⟩,
      ⟨some 9, some 9⟩] = some [⟨3, 1⟩, ⟨1, 2⟩] := by
  have h := (get_user_points_collects_first_n_valid_clicks 2
    [⟨some 3, some 1⟩, ⟨none, some 5⟩, ⟨some 1, some 2⟩, ⟨some 9, some 9⟩]
    (by decide) (by decide)).1
  rw [h]
  rfl

/-- C7 (counterexample): a readable file holding a single numeric
column parses under `np.loadtxt` into a 1-dimensional array, so the
column slice `data[:, 0]` raises an `IndexError` that the handler does
not catch — the failure is not the caught-`ValueError` FileFormatError
path the claim requires (the previous dataset is still unchanged). -/
theorem load_selected_file_single_column_counterexample :
    load_selected_file ⟨some ([0], [0]), []⟩
      (some [[Token.num 1], [Token.num 2]]) =
      (⟨some ([0], [0]), []⟩, .uncaught .indexError) ∧
    LoadOutcome.uncaught .indexError ≠ .caught .valueError := by
  exact ⟨rfl, by decide⟩

/-- C7 (amended): a file containing a non-numeric token, or two
non-blank rows with a different number of columns, fails with the
caught `ValueError` (FileFormatError); a parsed matrix with fewer than
2 rows or fewer than 2 columns instead fails with an uncaught
`IndexError`; on every non-successful outcome the previous session is
left completely unchanged; on success the dataset is replaced wholesale
by the two parsed columns. -/
theorem load_selected_file_failure_modes :
    (∀ (s : Session) (file : List (List Token)),
      ((∃ row ∈ file, Token.nonNumeric ∈ row) ∨
       (∃ r1 ∈ file, ∃ r2 ∈ file,
         r1 ≠ [] ∧ r2 ≠ [] ∧ r1.length ≠ r2.length)) →
      load_selected_file s (some file) = (s, .caught .valueError)) ∧
    (∀ (s : Session) (file : Option (List (List Token))),
      (load_selected_file s file).2 ≠ .success →
      (load_selected_file s file).1 = s) ∧
    (∀ (s : Session) (file : List (List Token)) (mat : List (List ℚ)),
      loadtxt file = .ok mat →
      2 ≤ mat.length → 2 ≤ (mat.headD []).length →
      load_selected_file s (some file) =
        ({ s with data := some (mat.map (fun r => r.getD 0 0),
                                mat.map (fun r => r.getD 1 0)) },
         .success)) ∧
    (∀ (s : Session) (file : List (List Token)) (mat : List (List ℚ)),
      loadtxt file = .ok mat →
      (mat.length < 2 ∨ (mat.headD []).length < 2) →
      load_selected_file s (some file) = (s, .uncaught .indexError)) := by
  refine ⟨?_, ?_, ?_, ?_⟩
  · rintro s file (⟨row, hrow, htok⟩ | ⟨r1, hr1, r2, hr2, hn1, hn2, hll⟩)
    · have hne : row ≠ [] := List.ne_nil_of_mem htok
      have hany : (file.filter (fun r => r ≠ [])).any
          (fun r => r.any (fun t => t = Token.nonNumeric)) = true := by
        rw [List.any_eq_true]
        refine ⟨row, ?_, ?_⟩
        · exact List.mem_filter.mpr ⟨hrow, by simpa using hne⟩
        · rw [List.any_eq_true]
          exact ⟨Token.nonNumeric, htok, by simp⟩
      unfold load_selected_file loadtxt
      dsimp only
      rw [if_pos hany]
    · have hmem1 : r1 ∈ file.filter (fun r => r ≠ []) :=
        List.mem_filter.mpr ⟨hr1, by simpa using hn1⟩
      have hmem2 : r2 ∈ file.filter (fun r => r ≠ []) :=
        List.mem_filter.mpr ⟨hr2, by simpa using hn2⟩
      unfold load_selected_file loadtxt
      dsimp only
      by_cases hnn : (file.filter (fun r => r ≠ [])).any
          (fun r => r.any (fun t => t = Token.nonNumeric)) = true
      · rw [if_pos hnn]
      · rw [if_neg hnn]
        have hB : (file.filter (fun r => r ≠ [])).any
            (fun r => r.length ≠
              ((file.filter (fun r => r ≠ [])).headD []).length) = true := by
          rw [List.any_eq_true]
          by_cases hc : r1.length =
              ((file.filter (fun r => r ≠ [])).headD []).length
          · refine ⟨r2, hmem2, ?_⟩
            simp only [decide_eq_true_eq]
            omega
          · refine ⟨r1, hmem1, ?_⟩
            simp only [decide_eq_true_eq]
            omega
        rw [if_pos hB]
  · intro s file h
    cases file with
    | none => rfl
    | some f =>
      unfold load_selected_file at h ⊢
      dsimp only at h ⊢
      cases hE : loadtxt f with
      | error e => rfl
      | ok mat =>
        rw [hE] at h
        dsimp only at h ⊢
        by_cases hshape : 2 ≤ mat.length ∧ 2 ≤ (mat.headD []).length
        · rw [if_pos hshape] at h
          exact absurd rfl h
        · rw [if_neg hshape]
  · intro s file mat hE h1 h2
    unfold load_selected_file
    dsimp only
    rw [hE]
    dsimp only
    rw [if_pos ⟨h1, h2⟩]
  · intro s file mat hE h
    unfold load_selected_file
    dsimp only
    rw [hE]
    dsimp only
    rw [if_neg (by intro hc; rcases h with h | h <;> omega)]

/-- Witness for C7's amended claim: a file with a non-numeric token,
and a file whose two rows have different column counts, are each
rejected as a FileFormatError with the session unchanged. -/
theorem load_selected_file_failure_modes_witness :
    load_selected_file ⟨some ([0], [0]), []⟩
      (some [[Token.num 1, Token.nonNumeric]]) =
      (⟨some ([0], [0]), []⟩, .caught .valueError) ∧
    load_selected_file ⟨some ([0], [0]), []⟩
      (some [[Token.num 1, Token.num 2], [Token.num 3]]) =
      (⟨some ([0], [0]), []⟩, .caught .valueError) :=
  ⟨load_selected_file_failure_modes.1 ⟨some ([0], [0]), []⟩
    [[Token.num 1, Token.nonNumeric]]
    (Or.inl ⟨[Token.num 1, Token.nonNumeric], by simp, by simp⟩),
   load_selected_file_failure_modes.1 ⟨some ([0], [0]), []⟩
    [[Token.num 1, Token.num 2], [Token.num 3]]
    (Or.inr ⟨[Token.num 1, Token.num 2], by simp, [Token.num 3], by simp,
      by simp, by simp, by simp⟩)⟩

/-- C8: a successful load establishes the DataSet invariant
(`len x = len y`, both non-empty), and both `remove_background` and
`calculate_intensities` preserve it (the latter never touches the
data at all). -/
theorem dataset_invariant_established_and_preserved :
    (∀ (s : Session) (file : Option (List (List Token))) (s' : Session)
       (x y : List ℚ),
      load_selected_file s file = (s', .success) → s'.data = some (x, y) →
      DataInvariant x y) ∧
    (∀ (x y : List ℚ) (points : List Point) (x' y' : List ℚ),
      DataInvariant x y → remove_background x y points = .ok (x', y') →
      DataInvariant x' y') ∧
    (∀ (s : Session) (points : List Point),
      (calculate_intensities s points).1.data = s.data) := by
  refine ⟨?_, ?_, ?_⟩
  · intro s file s' x y h hdata
    cases file with
    | none => simp [load_selected_file] at h
    | some f =>
      unfold load_selected_file at h
      dsimp only at h
      cases hE : loadtxt f with
      | error e => rw [hE] at h; simp at h
      | ok mat =>
        rw [hE] at h
        dsimp only at h
        by_cases hshape : 2 ≤ mat.length ∧ 2 ≤ (mat.headD []).length
        · rw [if_pos hshape] at h
          have hs' := (Prod.ext_iff.mp h).1
          dsimp only at hs'
          rw [← hs'] at hdata
          simp only [Option.some.injEq, Prod.mk.injEq] at hdata
          obtain ⟨hx, hy⟩ := hdata
          subst hx
          subst hy
          constructor
          · simp
          · have hpos : 0 < (mat.map (fun r => r.getD 0 0)).length := by
              simp only [List.length_map]
              omega
            exact List.ne_nil_of_length_pos hpos
        · rw [if_neg hshape] at h
          simp at h
  · intro x y points x' y' hinv h
    unfold remove_background at h
    split at h
    · simp only [Except.ok.injEq, Prod.mk.injEq] at h
      rw [← h.1, ← h.2]
      exact hinv
    · dsimp only at h
      split at h
      · exact Except.noConfusion h
      · simp only [Except.ok.injEq, Prod.mk.injEq] at h
        rw [← h.1, ← h.2]
        refine ⟨?_, hinv.2⟩
        simp only [List.length_map, List.length_zip]
        rw [← hinv.1, min_self]
  · intro s points
    rcases s with ⟨data, log⟩
    cases data with
    | none => rfl
    | some pr =>
      rcases pr with ⟨x, y⟩
      unfold calculate_intensities
      dsimp only
      split
      · rfl
      · split
        · rfl
        · rfl

/-- Witness for C8: the invariant holds of a freshly loaded dataset and
survives a concrete background removal. -/
theorem dataset_invariant_established_and_preserved_witness :
    DataInvariant ([0, 1] : List ℚ) [0, 0] :=
  dataset_invariant_established_and_preserved.2.1 [0, 1] [1, 2]
    [⟨0, 1⟩, ⟨1, 2⟩] [0, 1] [0, 0] ⟨rfl, by simp⟩
    (by norm_num [remove_background, pydiv])

/-- C10: `calculate_intensities` is read-only on the dataset: the
loaded `x`/`y` pair is the same before and after the call on every code
path, and the only session state it may change is the appended
results-log tail. -/
theorem calculate_intensities_readonly (s : Session) (points : List Point) :
    (calculate_intensities s points).1.data = s.data ∧
    ∃ tail, (calculate_intensities s points).1.results_text =
      s.results_text ++ tail := by
  rcases s with ⟨data, log⟩
  cases data with
  | none => exact ⟨rfl, [], by simp [calculate_intensities]⟩
  | some pr =>
    rcases pr with ⟨x, y⟩
    constructor
    · unfold calculate_intensities
      dsimp only
      split
      · rfl
      · split
        · rfl
        · rfl
    · unfold calculate_intensities
      dsimp only
      split
      · exact ⟨[], by simp⟩
      · split
        · exact ⟨[], by simp⟩
        · exact ⟨_, rfl⟩
